import Mathlib

/-!
Verification of the character-encoding / IRI module (`src/iri.c`).

The module is embedded shallowly:

* Machine bytes are `Nat`; C strings are `List Nat` (no embedded NUL).
* `size_t` arithmetic that can wrap is taken modulo `W = 2 ^ 64`.
* The iconv transcoder is an opaque capability: a `Codec` maps each input
  byte to its converted output bytes, to an invalid-sequence report
  (`EILSEQ` / `EINVAL`), or to an unspecified error (any other `errno`),
  matching the interface the code consumes.
* Heap buffers are `Buf`: a list of `Option Nat` cells (`none` means the
  cell was never written, i.e. holds indeterminate malloc garbage)
  together with a flag recording whether any write fell outside the
  allocation.
* Reading through a `char *` is `readCStr`: it yields the byte string up
  to the terminator, or `none` when the read crosses an indeterminate
  cell (reading uninitialized memory).
-/

/-- `2 ^ 64`, the modulus of `size_t` arithmetic. -/
def W : Nat := 2 ^ 64

/-- One step outcome of the opaque transcoder for a single input byte:
a successful translation to a byte sequence, an invalid / incomplete
multibyte sequence (`errno = EILSEQ` or `EINVAL`), or an unspecified
error (any other `errno`). -/
inductive COut where
  | conv : List Nat → COut
  | bad : COut
  | err : COut
deriving DecidableEq, Repr

/-- Whether a transcoder outcome is a successful translation. -/
def COut.isConv : COut → Bool
  | .conv _ => true
  | _ => false

/-- A conversion handle (`iconv_t`), modelled by the byte-for-byte
behaviour of the conversion it performs. -/
def Codec : Type := Nat → COut

/-- A heap buffer: cell contents (`none` = never written, indeterminate)
plus a flag set by any out-of-bounds write. -/
structure Buf where
  data : List (Option Nat)
  oob : Bool
deriving DecidableEq, Repr

/-- A fresh `xmalloc n` buffer: `n` indeterminate cells. -/
def mkBuf (n : Nat) : Buf := ⟨List.replicate n none, false⟩

/-- Store byte `v` at offset `i`; an offset outside the allocation sets
the out-of-bounds flag instead. -/
def writeByte (b : Buf) (i v : Nat) : Buf :=
  if i < b.data.length then ⟨b.data.set i (some v), b.oob⟩ else ⟨b.data, true⟩

/-- Store the bytes `vs` at consecutive offsets starting at `i`. -/
def writeList (b : Buf) (i : Nat) : List Nat → Buf
  | [] => b
  | v :: vs => writeList (writeByte b i v) (i + 1) vs

/-- Read a C string from consecutive cells: the bytes before the first
`0`, or `none` when an indeterminate cell (or the end of the allocation)
is reached first. -/
def readCStrAux : List (Option Nat) → Option (List Nat)
  | [] => none
  | none :: _ => none
  | some 0 :: _ => some []
  | some (b + 1) :: rest => (readCStrAux rest).map (fun l => (b + 1) :: l)

/-- Read the C string stored at offset `pos` of buffer `buf`. -/
def readCStr (buf : Buf) (pos : Nat) : Option (List Nat) :=
  readCStrAux (buf.data.drop pos)

/-- Result tag of one `iconv` call. -/
inductive IRes where
  | ok : IRes
  | bad : IRes
  | big : IRes
  | err : IRes
deriving DecidableEq, Repr

/-- State after one `iconv` call: result tag, remaining input (`*in` /
`*inlen`), output write offset (`*out`), remaining claimed output room
(`*outlen`) and the buffer. -/
structure IconvOut where
  res : IRes
  inp : List Nat
  pos : Nat
  outlen : Nat
  buf : Buf

/-- One `iconv (cd, &in, &inlen, out, &outlen)` call: convert input bytes
in order, writing each byte's translation at the write offset, until the
input is exhausted (`ok`), an invalid sequence is met (`bad`, input left
at the offending byte), the next translation does not fit in the claimed
room (`big`), or the transcoder reports an unspecified error (`err`). -/
def iconvRun (c : Codec) : List Nat → Nat → Nat → Buf → IconvOut
  | [], pos, outlen, buf => ⟨.ok, [], pos, outlen, buf⟩
  | b :: rest, pos, outlen, buf =>
    match c b with
    | .bad => ⟨.bad, b :: rest, pos, outlen, buf⟩
    | .err => ⟨.err, b :: rest, pos, outlen, buf⟩
    | .conv outs =>
      if outs.length ≤ outlen then
        iconvRun c rest (pos + outs.length) (outlen - outs.length) (writeList buf pos outs)
      else ⟨.big, b :: rest, pos, outlen, buf⟩

/-- Result of `do_conversion`: the returned flag, the final buffer, and
the offset `*out - s` at which the caller's `*out` pointer is left
(0 after the success branch resets it to the buffer start). -/
structure ConvOut where
  ok : Bool
  buf : Buf
  pos : Nat
deriving DecidableEq, Repr

/-- The `for (;;)` loop of `do_conversion` (`src/iri.c:189-231`),
transcribed variable for variable; `fuel` bounds the number of loop
iterations (exhaustion returns failure, and every property proved below
is established with adequate fuel).

  * success: `*out = s; *(s + len - outlen - done) = 0; return true`
    (the terminator offset is the C `size_t` expression, mod `W`);
  * `EILSEQ`/`EINVAL`: `**out = *in; in++; inlen--; (*out)++; outlen--;`
    (the decrement wraps mod `W`);
  * `E2BIG`: `done = len; outlen = done + inlen * 2;
    new = xmalloc (outlen + 1); memcpy (new, s, done); xfree (s);
    s = new; len = outlen; *out = s + done;` — note `done` is set to the
    whole old capacity `len`, not to the bytes actually written;
  * other error: `return false` with `*out` left where it was. -/
def dcLoop (c : Codec) : Nat → List Nat → Nat → Nat → Nat → Nat → Buf → ConvOut
  | 0, _, pos, _, _, _, buf => ⟨false, buf, pos⟩
  | fuel + 1, inp, pos, outlen, len, done, buf =>
    let r := iconvRun c inp pos outlen buf
    match r.res with
    | .ok => ⟨true, writeByte r.buf ((len + 2 * W - r.outlen - done) % W) 0, 0⟩
    | .bad =>
      match r.inp with
      | [] => ⟨false, r.buf, r.pos⟩
      | b :: rest =>
        dcLoop c fuel rest (r.pos + 1) ((r.outlen + W - 1) % W) len done
          (writeByte r.buf r.pos b)
    | .big =>
      let done2 := len
      let outlen2 := (done2 + r.inp.length * 2) % W
      let nb : Buf :=
        ⟨(r.buf.data.take done2 ++ List.replicate (outlen2 + 1 - done2) none).take (outlen2 + 1),
          r.buf.oob || decide (outlen2 + 1 < done2)⟩
      dcLoop c fuel r.inp done2 outlen2 outlen2 done2 nb
    | .err => ⟨false, r.buf, r.pos⟩

/-- Loop-iteration bound used by `do_conversion`; ample for every run
reasoned about below. -/
def fuelFor (inp : List Nat) : Nat := 2 * inp.length + 2

/-- `do_conversion (cd, in, inlen, out)` (`src/iri.c:176-234`): allocate
`inlen * 2 + 1` bytes, start with `*out = s`, `len = outlen = inlen * 2`,
`done = 0`, and run the conversion loop. -/
def do_conversion (c : Codec) (inp : List Nat) : ConvOut :=
  let outlen0 := (2 * inp.length) % W
  dcLoop c (fuelFor inp) inp 0 outlen0 outlen0 0 (mkBuf (outlen0 + 1))

/-- Specification-side description of the converter's intended output:
each byte's translation, with invalid bytes passed through verbatim. -/
def convertAll (c : Codec) : List Nat → List Nat
  | [] => []
  | b :: rest =>
    (match c b with
     | .conv outs => outs
     | _ => [b]) ++ convertAll c rest

/-- Split the input at the first byte the transcoder does not translate
(the input `iconv` consumes in one call, and the rest). -/
def takeConv (c : Codec) : List Nat → List Nat × List Nat
  | [] => ([], [])
  | b :: rest =>
    match c b with
    | .conv _ => (b :: (takeConv c rest).1, (takeConv c rest).2)
    | _ => ([], b :: rest)

/-- Number of invalid-sequence bytes in an input. -/
def badCount (c : Codec) (l : List Nat) : Nat :=
  l.countP (fun b => decide (c b = COut.bad))

/-! ### Charset parser (`parse_charset`, `check_encoding_name`) -/

/-- gnulib `c_isspace`: space, `\t`, `\n`, `\v`, `\f`, `\r`. -/
def isSpaceByte (b : Nat) : Bool :=
  b == 32 || (decide (9 ≤ b) && decide (b ≤ 13))

/-- ASCII `tolower` on a byte. -/
def lowerByte (b : Nat) : Nat :=
  if 65 ≤ b ∧ b ≤ 90 then b + 32 else b

/-- The bytes of `"charset="`, lowercase. -/
def charsetKey : List Nat := [99, 104, 97, 114, 115, 101, 116, 61]

/-- `strcasestr (str, "charset=")`: the first suffix of `str` whose first
eight bytes case-insensitively match `charset=`, or `none`. -/
def strcasestrCharset : List Nat → Option (List Nat)
  | [] => none
  | b :: rest =>
    if ((b :: rest).take 8).map lowerByte = charsetKey then some (b :: rest)
    else strcasestrCharset rest

/-- `check_encoding_name` (`src/iri.c:108-125`): every byte ASCII and not
whitespace (vacuously true of the empty name). -/
def check_encoding_name (enc : List Nat) : Bool :=
  enc.all (fun b => decide (b < 128) && !(isSpaceByte b))

/-- `parse_charset` (`src/iri.c:66-98`): find `charset=`, take the bytes
up to the first NUL or whitespace, and keep the token only when
`check_encoding_name` accepts it. -/
def parse_charset (str : List Nat) : Option (List Nat) :=
  if str = [] then none
  else
    match strcasestrCharset str with
    | none => none
    | some t =>
      let tok := (t.drop 8).takeWhile (fun b => !(b == 0) && !(isSpaceByte b))
      if check_encoding_name tok then some tok else none

/-! ### Encoding state registry -/

/-- The module's process-wide state: `remote`, `current`, `utf8_encode`,
`ugly_no_encode` (`src/iri.c:47-56`). -/
structure IriState where
  remote : Option (List Nat)
  current : Option (List Nat)
  utf8_encode : Bool
  ugly_no_encode : Bool
deriving DecidableEq, Repr

/-- `get_remote_charset` (`src/iri.c:323-326`). -/
def get_remote_charset (st : IriState) : Option (List Nat) := st.remote

/-- `get_current_charset` (`src/iri.c:328-331`). -/
def get_current_charset (st : IriState) : Option (List Nat) := st.current

/-- `set_current_charset` (`src/iri.c:333-340`): free the old value and
store a private copy of the argument (`xstrdup`; copies are values in
this embedding). -/
def set_current_charset (st : IriState) (charset : Option (List Nat)) : IriState :=
  { st with current := charset }

/-- `set_remote_charset` (`src/iri.c:352-360`). -/
def set_remote_charset (st : IriState) (charset : Option (List Nat)) : IriState :=
  { st with remote := charset }

/-- `set_remote_as_current` (`src/iri.c:362-370`): copy `current` into
`remote` (clearing `remote` when `current` is unset). -/
def set_remote_as_current (st : IriState) : IriState :=
  { st with remote := st.current }

/-- `set_utf8_encode` (`src/iri.c:377-380`). -/
def set_utf8_encode (st : IriState) (encode : Bool) : IriState :=
  { st with utf8_encode := encode }

/-! ### Remote-to-UTF-8 transcoder and IDN encode -/

/-- The configuration the module reads (`opt.encoding_remote`,
`opt.locale`, `opt.enable_iri`). -/
structure Opts where
  encoding_remote : Option (List Nat)
  enable_iri : Bool
deriving DecidableEq, Repr

/-- The bytes of `"UTF-8"`. -/
def utf8Name : List Nat := [85, 84, 70, 45, 56]

/-- The source-encoding choice of `remote_to_utf8` (`src/iri.c:297-302`):
the explicit `opt.encoding_remote` override if set, else the registry's
`current`, else none. -/
def chosenSource (opts : Opts) (current : Option (List Nat)) : Option (List Nat) :=
  match opts.encoding_remote with
  | some r => some r
  | none => current

/-- Observable outcome of one `remote_to_utf8` call: returned flag, the
string readable at `*new` (when determinate), which pointer `xfree` was
handed (the allocation start, or a mid-buffer pointer), whether the
input string was freed, and the conversion handles opened and closed. -/
structure RtuResult where
  ok : Bool
  out : Option (List Nat)
  freedStart : Bool
  freedMid : Bool
  freedInput : Bool
  opened : List (List Nat × List Nat)
  closed : List (List Nat × List Nat)

/-- `remote_to_utf8` (`src/iri.c:290-321`). `oc` is `iconv_open`
(target, source ↦ handle). The final `strcmp (str, *new)` runs whether or
not the conversion succeeded; when it compares against indeterminate
bytes its outcome is the unspecified-behaviour oracle `g`. -/
def remote_to_utf8 (oc : List Nat → List Nat → Option Codec) (opts : Opts)
    (st : IriState) (g : Bool) (str : List Nat) : RtuResult :=
  match chosenSource opts st.current with
  | none => ⟨false, none, false, false, false, [], []⟩
  | some r =>
    match oc utf8Name r with
    | none => ⟨false, none, false, false, false, [], []⟩
    | some cd =>
      let co := do_conversion cd str
      let newStr := readCStr co.buf co.pos
      let isEq : Bool :=
        match newStr with
        | some s2 => s2 == str
        | none => g
      if isEq then
        ⟨false, none, co.pos == 0, !(co.pos == 0), false,
          [(utf8Name, r)], [(utf8Name, r)]⟩
      else
        ⟨co.ok, newStr, false, false, false, [(utf8Name, r)], [(utf8Name, r)]⟩

/-- Status of the external IDNA to-ASCII capability
(`idna_to_ascii_8z`): success with the new domain, or a failure code. -/
inductive IdnaRes where
  | success : List Nat → IdnaRes
  | failure : Int → IdnaRes

/-- `idn_encode` (`src/iri.c:238-267`): unless the host is already known
to be UTF-8, first transcode it with `remote_to_utf8` (failure fails the
whole encode); then hand the UTF-8 string to the IDNA capability and
fail on any non-success status. `g2` resolves the string read through
`*new` when the transcoder left it indeterminate. -/
def idn_encode (oc : List Nat → List Nat → Option Codec) (opts : Opts)
    (st : IriState) (g : Bool) (g2 : List Nat) (idna : List Nat → IdnaRes)
    (host : List Nat) (utf8_encoded : Bool) : Option (List Nat) :=
  let hostUtf8 : Option (List Nat) :=
    if utf8_encoded then some host
    else
      let r := remote_to_utf8 oc opts st g host
      if r.ok then some (r.out.getD g2) else none
  match hostUtf8 with
  | none => none
  | some h =>
    match idna h with
    | .success out => some out
    | .failure _ => none

/-! ### Locale transcoder -/

/-- The state the locale transcoder touches: `opt.locale` and the cached
`locale2utf8` handle (`src/iri.c:58`). -/
structure LocState where
  opt_locale : Option (List Nat)
  locale2utf8 : Option Codec

/-- The bytes of `"utf-8"`, lowercase. -/
def utf8Lower : List Nat := [117, 116, 102, 45, 56]

/-- Case-fold a byte string for `strcasecmp`. -/
def lowerList (l : List Nat) : List Nat := l.map lowerByte

/-- `open_locale_to_utf8` (`src/iri.c:127-152`): reuse a cached handle;
derive `opt.locale` from the environment (`find_locale`, the parameter
`fl`) when unset; then try `iconv_open ("UTF-8", opt.locale)`. -/
def open_locale_to_utf8 (oc : List Nat → List Nat → Option Codec)
    (fl : Option (List Nat)) (s : LocState) : Bool × LocState :=
  if s.locale2utf8.isSome then (true, s)
  else
    let s1 := if s.opt_locale.isNone then { s with opt_locale := fl } else s
    match s1.opt_locale with
    | none => (false, s1)
    | some loc =>
      match oc utf8Name loc with
      | some cd => (true, { s1 with locale2utf8 := some cd })
      | none => (false, { s1 with locale2utf8 := none })

/-- What one `locale_to_utf8` call returns: `undef` when it evaluates
`strcasecmp (opt.locale, "utf-8")` with `opt.locale` unset (a NULL
dereference, undefined behaviour), `same` when it returns the input
pointer unchanged, or `converted` with the conversion result. -/
inductive LtuRes where
  | undef : LtuRes
  | same : LtuRes
  | converted : ConvOut → LtuRes

/-- `locale_to_utf8` (`src/iri.c:156-171`): compare `opt.locale` against
`"utf-8"` (reading `opt.locale` unguarded), else open the cached handle,
else run the converter, falling back to the input on any failure. -/
def locale_to_utf8 (oc : List Nat → List Nat → Option Codec)
    (fl : Option (List Nat)) (s : LocState) (str : List Nat) : LtuRes × LocState :=
  match s.opt_locale with
  | none => (.undef, s)
  | some loc =>
    if lowerList loc = utf8Lower then (.same, s)
    else
      let o := open_locale_to_utf8 oc fl s
      if o.1 then
        match o.2.locale2utf8 with
        | none => (.same, o.2)
        | some cd =>
          let co := do_conversion cd str
          if co.ok then (.converted co, o.2) else (.same, o.2)
      else (.same, o.2)

/-! ### Concrete codecs used by counterexamples and witnesses -/

/-- A codec under which byte 65 expands to four output bytes
(`97, 97, 97, 97`) and every other byte is an invalid sequence. -/
def cExpand : Codec := fun b => if b = 65 then .conv [97, 97, 97, 97] else .bad

/-- A codec under which byte 66 is invalid and every other byte expands
to four copies of byte 97. -/
def cBadThenWide : Codec := fun b => if b = 66 then .bad else .conv [97, 97, 97, 97]

/-- A codec that reports an unspecified error on every byte. -/
def cErr : Codec := fun _ => .err

/-- The identity codec: every byte converts to itself. -/
def cId : Codec := fun b => .conv [b]

/-- A codec mapping byte 65 to byte 97, byte 66 invalid, all other bytes
to themselves. -/
def cMix : Codec := fun b => if b = 66 then .bad else if b = 65 then .conv [97] else .conv [b]

/-! ### Basic buffer lemmas -/

/-- `writeByte` preserves the allocation size. -/
theorem writeByte_length (b : Buf) (i v : Nat) :
    (writeByte b i v).data.length = b.data.length := by
  unfold writeByte
  split <;> simp

/-- `writeList` preserves the allocation size. -/
theorem writeList_length (vs : List Nat) :
    ∀ (b : Buf) (i : Nat), (writeList b i vs).data.length = b.data.length := by
  induction vs with
  | nil => intro b i; rfl
  | cons v vs ih => intro b i; rw [writeList, ih, writeByte_length]

/-- Writing a concatenation is writing the parts in order. -/
theorem writeList_append (xs ys : List Nat) :
    ∀ (b : Buf) (i : Nat),
      writeList b i (xs ++ ys) = writeList (writeList b i xs) (i + xs.length) ys := by
  induction xs with
  | nil => intro b i; simp [writeList]
  | cons x xs ih =>
    intro b i
    have h1 : i + (x :: xs).length = (i + 1) + xs.length := by simp; omega
    rw [List.cons_append, writeList, writeList, ih, h1]

/-! ### size_t arithmetic lemmas -/

/-- In-range subtraction of one, as the wrapped `outlen--`. -/
theorem modW_sub_one (o : Nat) (h1 : 1 ≤ o) (h2 : o < W) : (o + W - 1) % W = o - 1 := by
  have h3 : o + W - 1 = (o - 1) + 1 * W := by omega
  rw [h3, Nat.add_mul_mod_self_right]
  exact Nat.mod_eq_of_lt (by omega)

/-- The terminator offset `len - outlen - done` at `done = 0`, in range. -/
theorem modW_term (len a : Nat) (h1 : a ≤ len) (h2 : len < W) :
    (len + 2 * W - a - 0) % W = len - a := by
  have h3 : len + 2 * W - a - 0 = (len - a) + 2 * W := by omega
  rw [h3, Nat.add_mul_mod_self_right]
  exact Nat.mod_eq_of_lt (by omega)

/-! ### Decomposition of one `iconv` call -/

/-- `takeConv` splits the input. -/
theorem takeConv_append (c : Codec) :
    ∀ inp : List Nat, (takeConv c inp).1 ++ (takeConv c inp).2 = inp := by
  intro inp
  induction inp with
  | nil => rfl
  | cons b rest ih =>
    cases hcb : c b with
    | conv outs => simp [takeConv, hcb]; exact ih
    | bad => simp [takeConv, hcb]
    | err => simp [takeConv, hcb]

/-- `convertAll` distributes over concatenation. -/
theorem convertAll_append (c : Codec) (xs ys : List Nat) :
    convertAll c (xs ++ ys) = convertAll c xs ++ convertAll c ys := by
  induction xs with
  | nil => simp [convertAll]
  | cons b rest ih => simp [convertAll, ih]

/-- Invalid bytes are all in the remainder of the `takeConv` split. -/
theorem badCount_takeConv (c : Codec) :
    ∀ inp : List Nat, badCount c inp = badCount c (takeConv c inp).2 := by
  intro inp
  induction inp with
  | nil => rfl
  | cons b rest ih =>
    cases hcb : c b with
    | conv outs =>
      simp only [takeConv, hcb]
      rw [badCount, List.countP_cons, ← badCount]
      simp [hcb, ih]
    | bad => simp [takeConv, hcb]
    | err => simp [takeConv, hcb]

/-- The remainder of the `takeConv` split is empty or starts with a byte
the transcoder does not translate. -/
theorem takeConv_snd_cases (c : Codec) :
    ∀ inp : List Nat, (takeConv c inp).2 = [] ∨
      ∃ b r2, (takeConv c inp).2 = b :: r2 ∧ (c b = COut.bad ∨ c b = COut.err) := by
  intro inp
  induction inp with
  | nil => exact Or.inl rfl
  | cons b rest ih =>
    cases hcb : c b with
    | conv outs => simpa [takeConv, hcb] using ih
    | bad => exact Or.inr ⟨b, rest, by simp [takeConv, hcb], Or.inl hcb⟩
    | err => exact Or.inr ⟨b, rest, by simp [takeConv, hcb], Or.inr hcb⟩

/-- One `iconv` call with enough room for the translatable prefix:
it consumes exactly that prefix, writes its translation contiguously,
and stops at the end of input or at the first untranslatable byte. -/
theorem iconvRun_clean (c : Codec) :
    ∀ (inp : List Nat) (pos outlen : Nat) (buf : Buf),
      (convertAll c (takeConv c inp).1).length ≤ outlen →
      iconvRun c inp pos outlen buf =
        ⟨match (takeConv c inp).2 with
          | [] => IRes.ok
          | b :: _ =>
            match c b with
            | .bad => IRes.bad
            | .err => IRes.err
            | .conv _ => IRes.ok,
         (takeConv c inp).2,
         pos + (convertAll c (takeConv c inp).1).length,
         outlen - (convertAll c (takeConv c inp).1).length,
         writeList buf pos (convertAll c (takeConv c inp).1)⟩ := by
  intro inp
  induction inp with
  | nil =>
    intro pos outlen buf h
    simp [iconvRun, takeConv, convertAll, writeList]
  | cons b rest ih =>
    intro pos outlen buf h
    cases hcb : c b with
    | bad => simp [iconvRun, takeConv, convertAll, hcb, writeList]
    | err => simp [iconvRun, takeConv, convertAll, hcb, writeList]
    | conv outs =>
      simp only [takeConv, hcb, convertAll] at h ⊢
      rw [List.length_append] at h
      have hfits : outs.length ≤ outlen := by omega
      rw [iconvRun, hcb]
      simp only [hfits, if_true]
      rw [ih (pos + outs.length) (outlen - outs.length) (writeList buf pos outs)
        (by omega)]
      rw [writeList_append]
      simp [List.length_append, Nat.add_assoc, Nat.sub_sub]

/-- One `iconv` call on fully translatable input with enough room:
success, with the translation written contiguously. -/
theorem iconvRun_done (c : Codec) (inp : List Nat) (pos outlen : Nat) (buf : Buf)
    (hend : (takeConv c inp).2 = [])
    (hle : (convertAll c inp).length ≤ outlen) :
    iconvRun c inp pos outlen buf =
      ⟨IRes.ok, [], pos + (convertAll c inp).length,
        outlen - (convertAll c inp).length, writeList buf pos (convertAll c inp)⟩ := by
  have hvpinp : (takeConv c inp).1 = inp := by
    have hs := takeConv_append c inp
    rw [hend] at hs
    simpa using hs
  have h := iconvRun_clean c inp pos outlen buf (by rw [hvpinp]; exact hle)
  rw [hend, hvpinp] at h
  simpa using h

/-- One `iconv` call stopping at the first invalid byte, with enough room
for the translatable prefix: the prefix is consumed and written, and the
input is left at the offending byte. -/
theorem iconvRun_stop (c : Codec) (inp : List Nat) (pos outlen : Nat) (buf : Buf)
    (b : Nat) (r2 : List Nat)
    (hend : (takeConv c inp).2 = b :: r2) (hbad : c b = COut.bad)
    (hle : (convertAll c (takeConv c inp).1).length ≤ outlen) :
    iconvRun c inp pos outlen buf =
      ⟨IRes.bad, b :: r2, pos + (convertAll c (takeConv c inp).1).length,
        outlen - (convertAll c (takeConv c inp).1).length,
        writeList buf pos (convertAll c (takeConv c inp).1)⟩ := by
  have h := iconvRun_clean c inp pos outlen buf hle
  rw [hend] at h
  simpa [hbad] using h

/-- The conversion loop on a run that needs no reallocation: when the
whole intended output fits in the claimed room (and no unspecified
transcoder error occurs), the loop succeeds and the buffer receives
exactly the intended output followed by the terminator, contiguously
from the write offset. `pos + outlen = len` is the loop invariant tying
the write offset to the remaining room of the single buffer. -/
theorem dcLoop_clean (c : Codec) :
    ∀ (fuel : Nat) (inp : List Nat) (pos outlen len : Nat) (buf : Buf),
      badCount c inp < fuel →
      (∀ b ∈ inp, c b ≠ COut.err) →
      (convertAll c inp).length ≤ outlen →
      pos + outlen = len →
      len < W →
      dcLoop c fuel inp pos outlen len 0 buf =
        ⟨true, writeList buf pos (convertAll c inp ++ [0]), 0⟩ := by
  intro fuel
  induction fuel with
  | zero => intro inp pos outlen len buf h1; omega
  | succ fuel ih =>
    intro inp pos outlen len buf h1 h2 h3 h4 h5
    have hsplit := takeConv_append c inp
    have hca : convertAll c inp
        = convertAll c (takeConv c inp).1 ++ convertAll c (takeConv c inp).2 := by
      conv_lhs => rw [← hsplit]
      exact convertAll_append c _ _
    have hvp : (convertAll c (takeConv c inp).1).length ≤ outlen := by
      rw [hca, List.length_append] at h3; omega
    rcases takeConv_snd_cases c inp with hend | ⟨b, r2, hend, hbe⟩
    · -- the whole input is translatable: the call succeeds at once
      rw [dcLoop, iconvRun_done c inp pos outlen buf hend h3]
      dsimp only
      rw [modW_term len (outlen - (convertAll c inp).length) (by omega) h5]
      have hterm : len - (outlen - (convertAll c inp).length)
          = pos + (convertAll c inp).length := by omega
      rw [hterm, writeList_append]
      simp [writeList]
    · rcases hbe with hbad | herr
      · -- invalid sequence: pass the byte through and continue
        have hca2 : convertAll c inp
            = convertAll c (takeConv c inp).1 ++ b :: convertAll c r2 := by
          rw [hca, hend]
          simp [convertAll, hbad]
        have hlen2 : (convertAll c (takeConv c inp).1).length + 1
            + (convertAll c r2).length ≤ outlen := by
          rw [hca2] at h3; simp at h3; omega
        have hsub : ∀ x ∈ r2, c x ≠ COut.err := by
          intro x hx
          refine h2 x ?_
          rw [← hsplit, hend]
          exact List.mem_append.mpr (Or.inr (List.mem_cons_of_mem b hx))
        have hbc : badCount c r2 < fuel := by
          have hb1 : badCount c inp = badCount c (b :: r2) := by
            rw [badCount_takeConv c inp, hend]
          have hb2 : badCount c (b :: r2) = badCount c r2 + 1 := by
            rw [badCount, List.countP_cons]
            simp [hbad, badCount]
          omega
        rw [dcLoop, iconvRun_stop c inp pos outlen buf b r2 hend hbad hvp]
        dsimp only
        rw [modW_sub_one (outlen - (convertAll c (takeConv c inp).1).length)
          (by omega) (by omega)]
        rw [ih r2 (pos + (convertAll c (takeConv c inp).1).length + 1)
          (outlen - (convertAll c (takeConv c inp).1).length - 1) len
          (writeByte (writeList buf pos (convertAll c (takeConv c inp).1))
            (pos + (convertAll c (takeConv c inp).1).length) b)
          hbc hsub (by omega) (by omega) h5]
        have happ : convertAll c inp ++ [0]
            = convertAll c (takeConv c inp).1 ++ (b :: (convertAll c r2 ++ [0])) := by
          rw [hca2]; simp
        have hrhs : writeList buf pos (convertAll c inp ++ [0])
            = writeList (writeByte (writeList buf pos (convertAll c (takeConv c inp).1))
                (pos + (convertAll c (takeConv c inp).1).length) b)
              (pos + (convertAll c (takeConv c inp).1).length + 1)
              (convertAll c r2 ++ [0]) := by
          rw [happ, writeList_append]
          simp only [writeList]
        rw [hrhs]
      · exact absurd herr (h2 b (by
          rw [← hsplit, hend]
          exact List.mem_append.mpr (Or.inr (List.mem_cons_self b r2))))

/-- Setting the cell just past a fully written prefix turns one more
indeterminate cell into a written one. -/
theorem set_fill (x : Nat) :
    ∀ (ys : List Nat) (k : Nat), 0 < k →
      (ys.map some ++ List.replicate k (none : Option Nat)).set ys.length (some x)
        = (ys ++ [x]).map some ++ List.replicate (k - 1) none := by
  intro ys
  induction ys with
  | nil =>
    intro k hk
    cases k with
    | zero => omega
    | succ k2 => simp [List.replicate_succ]
  | cons y ys ih =>
    intro k hk
    simp only [List.map_cons, List.cons_append, List.length_cons, List.set_cons_succ]
    rw [ih k hk]

/-- Writing `xs` right after an already written prefix of a buffer whose
tail is indeterminate fills the next `xs.length` cells, in bounds. -/
theorem writeList_fill :
    ∀ (xs ys : List Nat) (k : Nat), xs.length ≤ k →
      writeList ⟨ys.map some ++ List.replicate k none, false⟩ ys.length xs
        = ⟨(ys ++ xs).map some ++ List.replicate (k - xs.length) none, false⟩ := by
  intro xs
  induction xs with
  | nil => intro ys k h; simp [writeList]
  | cons x xs ih =>
    intro ys k h
    rw [writeList, writeByte]
    have hlt : ys.length < (ys.map some ++ List.replicate k (none : Option Nat)).length := by
      simp at h ⊢
      omega
    rw [if_pos hlt]
    simp only
    rw [set_fill x ys k (by simp at h; omega)]
    have hlen : ys.length + 1 = (ys ++ [x]).length := by simp
    rw [hlen, ih (ys ++ [x]) (k - 1) (by simp at h; omega)]
    have harr : k - 1 - xs.length = k - (x :: xs).length := by simp; omega
    rw [harr]
    simp

/-- Whenever the conversion loop reports success, it has reset the
caller's `*out` pointer to the buffer start. -/
theorem dcLoop_ok_pos (c : Codec) :
    ∀ (fuel : Nat) (inp : List Nat) (pos outlen len done : Nat) (buf : Buf),
      (dcLoop c fuel inp pos outlen len done buf).ok = true →
      (dcLoop c fuel inp pos outlen len done buf).pos = 0 := by
  intro fuel
  induction fuel with
  | zero => intro inp pos outlen len done buf h; simp [dcLoop] at h
  | succ fuel ih =>
    intro inp pos outlen len done buf h
    rw [dcLoop] at h ⊢
    rcases hres : (iconvRun c inp pos outlen buf).res
    case ok => rfl
    case bad =>
      rw [hres] at h
      rcases hinp : (iconvRun c inp pos outlen buf).inp
      case nil => rw [hinp] at h; simp at h
      case cons b rest =>
        rw [hinp] at h
        exact ih _ _ _ _ _ _ h
    case big =>
      rw [hres] at h
      exact ih _ _ _ _ _ _ h
    case err => rw [hres] at h; simp at h

/-- Whenever `do_conversion` reports success, the caller's `*out`
pointer is the allocation start. -/
theorem do_conversion_ok_pos (c : Codec) (inp : List Nat) :
    (do_conversion c inp).ok = true → (do_conversion c inp).pos = 0 :=
  dcLoop_ok_pos c (fuelFor inp) inp 0 _ _ 0 _

/-- `do_conversion` on a run whose whole output fits the initial buffer
(no reallocation): success, and the buffer is exactly the intended
output, the terminator, and the untouched remainder, with no write out
of bounds. -/
theorem do_conversion_clean (c : Codec) (inp : List Nat)
    (hne : ∀ b ∈ inp, c b ≠ COut.err)
    (hle : (convertAll c inp).length ≤ 2 * inp.length)
    (hw : 2 * inp.length < W) :
    do_conversion c inp =
      ⟨true,
        ⟨(convertAll c inp ++ [0]).map some
            ++ List.replicate (2 * inp.length + 1 - (convertAll c inp ++ [0]).length) none,
          false⟩,
        0⟩ := by
  have hbc : badCount c inp < fuelFor inp := by
    have hcp : badCount c inp ≤ inp.length := List.countP_le_length _
    unfold fuelFor
    omega
  unfold do_conversion
  rw [Nat.mod_eq_of_lt hw]
  rw [dcLoop_clean c (fuelFor inp) inp 0 (2 * inp.length) (2 * inp.length)
    (mkBuf (2 * inp.length + 1)) hbc hne hle (by omega) hw]
  have hfill := writeList_fill (convertAll c inp ++ [0]) [] (2 * inp.length + 1)
    (by simp; omega)
  simp only [List.map_nil, List.nil_append, List.length_nil] at hfill
  unfold mkBuf
  rw [hfill]

/-- Claim C1: on an input whose converted output exceeds twice the input
length, `do_conversion` reports success but the returned buffer is NOT
the converted bytes followed by a terminator: the reallocation commits
the whole old capacity (`done = len`) including never-written cells,
over-reports the new room, writes out of bounds, and plants the
terminator at `len - outlen - done`, inside the data. Concretely, with a
codec expanding byte 65 to `97, 97, 97, 97`, converting `[65]` yields a
buffer whose first two cells are indeterminate, whose third cell is the
terminator, and an out-of-bounds write — not `97, 97, 97, 97, 0`. -/
theorem do_conversion_regrow_corrupts :
    (do_conversion cExpand [65]).ok = true ∧
    convertAll cExpand [65] = [97, 97, 97, 97] ∧
    (do_conversion cExpand [65]).buf.data = [none, none, some 0, some 97, some 97] ∧
    (do_conversion cExpand [65]).buf.oob = true ∧
    readCStr (do_conversion cExpand [65]).buf (do_conversion cExpand [65]).pos
      ≠ some [97, 97, 97, 97] := by decide

/-- Claim C2, counterexample: with a codec under which byte 66 is
invalid and byte 65 expands fourfold, converting `[66, 65]` should (per
the claim) produce output `66, 97, 97, 97, 97` with the invalid byte
first; instead the reallocation bug leaves the terminator at offset 0,
so the returned string is empty and the passed-through byte is lost. -/
theorem do_conversion_passthrough_cex :
    (do_conversion cBadThenWide [66, 65]).ok = true ∧
    convertAll cBadThenWide [66, 65] = [66, 97, 97, 97, 97] ∧
    readCStr (do_conversion cBadThenWide [66, 65]).buf
        (do_conversion cBadThenWide [66, 65]).pos
      ≠ some [66, 97, 97, 97, 97] ∧
    readCStr (do_conversion cBadThenWide [66, 65]).buf
        (do_conversion cBadThenWide [66, 65]).pos = some [] := by decide

/-- Claim C2 (amended): on an invalid or incomplete multibyte sequence
`do_conversion` copies the single offending input byte verbatim into the
output, advances both cursors by one and continues; consequently — for
any run whose total converted output fits within the initial buffer of
twice the input length, so that the (separately broken, see C1) buffer
regrowth is not triggered — an input of valid bytes around one invalid
byte converts to exactly (valid-prefix output) ++ invalid byte ++
(valid-suffix output), i.e. the output length is the valid portion's
plus one and the invalid byte sits at its original relative position,
followed by the terminator. -/
theorem do_conversion_passthrough (c : Codec) (pre post : List Nat) (x : Nat)
    (h1 : ∀ b ∈ pre, (c b).isConv = true)
    (h2 : c x = COut.bad)
    (h3 : ∀ b ∈ post, (c b).isConv = true)
    (h4 : (convertAll c (pre ++ x :: post)).length ≤ 2 * (pre ++ x :: post).length)
    (h5 : 2 * (pre ++ x :: post).length < W) :
    (do_conversion c (pre ++ x :: post)).ok = true ∧
    (do_conversion c (pre ++ x :: post)).buf.oob = false ∧
    (do_conversion c (pre ++ x :: post)).buf.data
      = ((convertAll c pre ++ x :: convertAll c post) ++ [0]).map some
        ++ List.replicate
            (2 * (pre ++ x :: post).length
              - (convertAll c pre ++ x :: convertAll c post).length) none ∧
    (convertAll c pre ++ x :: convertAll c post).length
      = (convertAll c pre ++ convertAll c post).length + 1 := by
  have hne : ∀ b ∈ pre ++ x :: post, c b ≠ COut.err := by
    intro b hb hc
    rcases List.mem_append.mp hb with hpre | hxp
    · have hv := h1 b hpre
      rw [hc] at hv
      simp [COut.isConv] at hv
    · rcases List.mem_cons.mp hxp with heq | hpost
      · rw [heq, h2] at hc
        cases hc
      · have hv := h3 b hpost
        rw [hc] at hv
        simp [COut.isConv] at hv
  have hca3 : convertAll c (pre ++ x :: post)
      = convertAll c pre ++ x :: convertAll c post := by
    rw [convertAll_append]
    simp [convertAll, h2]
  have hdc := do_conversion_clean c (pre ++ x :: post) hne h4 h5
  refine ⟨by rw [hdc], by rw [hdc], ?_, ?_⟩
  · rw [hdc, ← hca3]
    have hcount : 2 * (pre ++ x :: post).length + 1
          - (convertAll c (pre ++ x :: post) ++ [0]).length
        = 2 * (pre ++ x :: post).length - (convertAll c (pre ++ x :: post)).length := by
      simp
    rw [hcount]
  · simp only [List.length_append, List.length_cons]
    omega

/-- Claim C2, witness: the amended theorem at the codec `cMix`
(65 ↦ 97, 66 invalid, 67 ↦ 67) on input `[65, 66, 67]`. -/
theorem do_conversion_passthrough_wit :
    (∀ b ∈ [65], (cMix b).isConv = true) ∧
    cMix 66 = COut.bad ∧
    (∀ b ∈ [67], (cMix b).isConv = true) ∧
    (convertAll cMix [65, 66, 67]).length ≤ 2 * [65, 66, 67].length ∧
    2 * [65, 66, 67].length < W ∧
    ((do_conversion cMix [65, 66, 67]).ok = true ∧
     (do_conversion cMix [65, 66, 67]).buf.oob = false ∧
     (do_conversion cMix [65, 66, 67]).buf.data
       = ((convertAll cMix [65] ++ 66 :: convertAll cMix [67]) ++ [0]).map some
         ++ List.replicate
             (2 * [65, 66, 67].length
               - (convertAll cMix [65] ++ 66 :: convertAll cMix [67]).length) none ∧
     (convertAll cMix [65] ++ 66 :: convertAll cMix [67]).length
       = (convertAll cMix [65] ++ convertAll cMix [67]).length + 1) :=
  ⟨by decide, by decide, by decide, by decide, by decide,
    do_conversion_passthrough cMix [65] [67] 66 (by decide) (by decide) (by decide)
      (by decide) (by decide)⟩

/-- Claim C3, counterexample: `parse_charset "charset= "` returns the
empty token (an owned empty string), not NULL: `check_encoding_name`
accepts the empty name vacuously, so the non-emptiness the claim states
is not checked. The bytes below are `charset= `. -/
theorem parse_charset_empty_cex :
    parse_charset [99, 104, 97, 114, 115, 101, 116, 61, 32] = some [] ∧
    parse_charset [99, 104, 97, 114, 115, 101, 116, 61, 32] ≠ none := by decide

/-- Claim C3 (amended): when the substring between `charset=` and the
first following whitespace (or end of string) is empty, `parse_charset`
returns the empty token rather than NULL: the validity check demands
only that every byte be ASCII and non-whitespace, which holds vacuously
of the empty token; in particular `parse_charset ("charset= ")` is the
empty string, not "no charset". -/
theorem parse_charset_empty_token (s t : List Nat)
    (h1 : strcasestrCharset s = some t)
    (h2 : (t.drop 8).takeWhile (fun b => !(b == 0) && !(isSpaceByte b)) = []) :
    parse_charset s = some [] := by
  have hs : ¬s = [] := by
    intro h
    rw [h] at h1
    simp [strcasestrCharset] at h1
  simp [parse_charset, hs, h1, h2, check_encoding_name]

/-- Claim C3, witness: the amended theorem at the input `charset= `. -/
theorem parse_charset_empty_token_wit :
    strcasestrCharset [99, 104, 97, 114, 115, 101, 116, 61, 32]
      = some [99, 104, 97, 114, 115, 101, 116, 61, 32] ∧
    (([99, 104, 97, 114, 115, 101, 116, 61, 32].drop 8).takeWhile
      (fun b => !(b == 0) && !(isSpaceByte b))) = [] ∧
    parse_charset [99, 104, 97, 114, 115, 101, 116, 61, 32] = some [] :=
  ⟨by decide, by decide,
    parse_charset_empty_token [99, 104, 97, 114, 115, 101, 116, 61, 32]
      [99, 104, 97, 114, 115, 101, 116, 61, 32] (by decide) (by decide)⟩

/-- Claim C4, counterexample: when the underlying conversion fails (the
transcoder reports an unspecified error on the first byte of `"A"`),
`remote_to_utf8` reports failure but releases nothing: the final
`strcmp (str, *new)` compares against never-written memory and, in the
(typical) unequal resolution of that indeterminate read, the function
returns without freeing the output buffer — contrary to the claim that
failure releases exactly the newly allocated buffer. -/
theorem remote_to_utf8_release_cex :
    (do_conversion cErr [65]).ok = false ∧
    (remote_to_utf8 (fun _ _ => some cErr) ⟨some [88], false⟩
      ⟨none, none, false, false⟩ false [65]).ok = false ∧
    (remote_to_utf8 (fun _ _ => some cErr) ⟨some [88], false⟩
      ⟨none, none, false, false⟩ false [65]).freedStart = false ∧
    (remote_to_utf8 (fun _ _ => some cErr) ⟨some [88], false⟩
      ⟨none, none, false, false⟩ false [65]).freedMid = false :=
  ⟨rfl, rfl, rfl, rfl⟩

/-- Claim C4 (amended): whenever the underlying conversion fails, or the
converted output is byte-for-byte identical to the input,
`remote_to_utf8` reports failure ("no conversion") rather than success
— in particular a UTF-8→UTF-8 run on an already-UTF-8 string is "no
conversion", not a fresh identical copy. On the successful-but-identical
path it releases exactly the newly allocated output buffer (the pointer
the allocator returned, to which the success branch reset `*new`) and
never the input string. On the conversion-failure path, however, the
release guarantee does not hold: the code compares the input against
indeterminate bytes at the write cursor and either frees nothing
(leaking the buffer) or frees whatever pointer the cursor holds. -/
theorem remote_to_utf8_no_conversion (oc : List Nat → List Nat → Option Codec)
    (opts : Opts) (st : IriState) (g : Bool) (str : List Nat)
    (r : List Nat) (cd : Codec)
    (h1 : chosenSource opts st.current = some r)
    (h2 : oc utf8Name r = some cd) :
    (remote_to_utf8 oc opts st g str).freedInput = false ∧
    ((do_conversion cd str).ok = false → (remote_to_utf8 oc opts st g str).ok = false) ∧
    ((do_conversion cd str).ok = true →
      readCStr (do_conversion cd str).buf 0 = some str →
      (remote_to_utf8 oc opts st g str).ok = false ∧
      (remote_to_utf8 oc opts st g str).freedStart = true ∧
      (remote_to_utf8 oc opts st g str).freedMid = false) := by
  simp only [remote_to_utf8, h1, h2]
  refine ⟨?_, ?_, ?_⟩
  · split <;> rfl
  · intro hok
    split
    · rfl
    · simpa using hok
  · intro hok hread
    have hpos := do_conversion_ok_pos cd str hok
    rw [hpos, hread]
    simp [hpos]

/-- Claim C4, witness: the amended theorem on the identity (UTF-8 to
UTF-8) pairing applied to the already-UTF-8 input `"A"`: the conversion
succeeds, the output equals the input, and the call reports "no
conversion" after freeing exactly the fresh buffer. -/
theorem remote_to_utf8_no_conversion_wit :
    chosenSource ⟨some utf8Name, false⟩
      (⟨none, none, false, false⟩ : IriState).current = some utf8Name ∧
    (fun _ _ => some cId : List Nat → List Nat → Option Codec) utf8Name utf8Name
      = some cId ∧
    ((remote_to_utf8 (fun _ _ => some cId) ⟨some utf8Name, false⟩
        ⟨none, none, false, false⟩ false [65]).freedInput = false ∧
     ((do_conversion cId [65]).ok = false →
       (remote_to_utf8 (fun _ _ => some cId) ⟨some utf8Name, false⟩
         ⟨none, none, false, false⟩ false [65]).ok = false) ∧
     ((do_conversion cId [65]).ok = true →
       readCStr (do_conversion cId [65]).buf 0 = some [65] →
       (remote_to_utf8 (fun _ _ => some cId) ⟨some utf8Name, false⟩
         ⟨none, none, false, false⟩ false [65]).ok = false ∧
       (remote_to_utf8 (fun _ _ => some cId) ⟨some utf8Name, false⟩
         ⟨none, none, false, false⟩ false [65]).freedStart = true ∧
       (remote_to_utf8 (fun _ _ => some cId) ⟨some utf8Name, false⟩
         ⟨none, none, false, false⟩ false [65]).freedMid = false)) :=
  ⟨rfl, rfl, remote_to_utf8_no_conversion _ _ _ _ _ _ _ rfl rfl⟩

/-- Claim C5: `remote_to_utf8` selects its source encoding as the
explicit `opt.encoding_remote` override if set, else the registry's
`current` if set, else fails immediately without opening anything; when
a source is found it opens one fresh handle for the pair
(UTF-8, source) — if the provider supports it — and every handle it
opens is closed before the call returns. -/
theorem remote_to_utf8_source_handle (oc : List Nat → List Nat → Option Codec)
    (opts : Opts) (st : IriState) (g : Bool) (str : List Nat) :
    (remote_to_utf8 oc opts st g str).closed = (remote_to_utf8 oc opts st g str).opened ∧
    (chosenSource opts st.current
      = match opts.encoding_remote with
        | some r => some r
        | none => st.current) ∧
    (chosenSource opts st.current = none →
      (remote_to_utf8 oc opts st g str).ok = false ∧
      (remote_to_utf8 oc opts st g str).opened = []) ∧
    (∀ r, chosenSource opts st.current = some r →
      (remote_to_utf8 oc opts st g str).opened
        = match oc utf8Name r with
          | some _ => [(utf8Name, r)]
          | none => []) := by
  refine ⟨?_, rfl, ?_, ?_⟩
  · cases hc : chosenSource opts st.current with
    | none => simp [remote_to_utf8, hc]
    | some r0 =>
      cases ho : oc utf8Name r0 with
      | none => simp [remote_to_utf8, hc, ho]
      | some cd =>
        simp only [remote_to_utf8, hc, ho]
        split <;> rfl
  · intro hc
    simp [remote_to_utf8, hc]
  · intro r hr
    cases ho : oc utf8Name r with
    | none => simp [remote_to_utf8, hr, ho]
    | some cd =>
      simp only [remote_to_utf8, hr, ho]
      split <;> rfl

/-- Claim C6: `set_current_charset "A"` followed by
`set_remote_as_current` makes `get_remote_charset` return `"A"`, and
`set_current_charset none` followed by `set_remote_as_current` clears
the remote charset: `set_remote_as_current` copies `current` into
`remote`, clearing `remote` when `current` is unset. -/
theorem registry_remote_from_current (st : IriState) (a : List Nat) :
    get_remote_charset (set_remote_as_current (set_current_charset st (some a)))
      = some a ∧
    get_remote_charset (set_remote_as_current (set_current_charset st none)) = none :=
  ⟨rfl, rfl⟩

/-- Claim C7: with a configured local encoding, `locale_to_utf8` returns
the input unchanged (no conversion attempted, no allocation kept) when
that encoding equals `"UTF-8"` case-insensitively, when opening the
cached locale-to-UTF-8 handle fails, and when the conversion itself
fails; only a successful conversion yields a new string. -/
theorem locale_to_utf8_fallback (oc : List Nat → List Nat → Option Codec)
    (fl : Option (List Nat)) (s : LocState) (str : List Nat) (loc : List Nat)
    (h : s.opt_locale = some loc) :
    (lowerList loc = utf8Lower → (locale_to_utf8 oc fl s str).1 = LtuRes.same) ∧
    ((open_locale_to_utf8 oc fl s).1 = false →
      (locale_to_utf8 oc fl s str).1 = LtuRes.same) ∧
    (∀ cdh, (open_locale_to_utf8 oc fl s).2.locale2utf8 = some cdh →
      (do_conversion cdh str).ok = false →
      (locale_to_utf8 oc fl s str).1 = LtuRes.same) ∧
    (∀ co, (locale_to_utf8 oc fl s str).1 = LtuRes.converted co → co.ok = true) := by
  refine ⟨?_, ?_, ?_, ?_⟩
  · intro hl
    simp [locale_to_utf8, h, hl]
  · intro hb
    by_cases hl : lowerList loc = utf8Lower
    · simp [locale_to_utf8, h, hl]
    · simp [locale_to_utf8, h, hl, hb]
  · intro cdh hcd hok
    by_cases hl : lowerList loc = utf8Lower
    · simp [locale_to_utf8, h, hl]
    · cases hb : (open_locale_to_utf8 oc fl s).1 with
      | false => simp [locale_to_utf8, h, hl, hb]
      | true => simp [locale_to_utf8, h, hl, hb, hcd, hok]
  · intro co hco
    by_cases hl : lowerList loc = utf8Lower
    · simp [locale_to_utf8, h, hl] at hco
    · cases hb : (open_locale_to_utf8 oc fl s).1 with
      | false => simp [locale_to_utf8, h, hl, hb] at hco
      | true =>
        cases hcd : (open_locale_to_utf8 oc fl s).2.locale2utf8 with
        | none => simp [locale_to_utf8, h, hl, hb, hcd] at hco
        | some cd0 =>
          cases hok : (do_conversion cd0 str).ok with
          | false => simp [locale_to_utf8, h, hl, hb, hcd, hok] at hco
          | true =>
            simp [locale_to_utf8, h, hl, hb, hcd, hok] at hco
            rw [← hco]
            exact hok

/-- Claim C7, witness: the configured local encoding is `"utf-8"`
itself, so the call returns the input unchanged. -/
theorem locale_to_utf8_fallback_wit :
    (⟨some utf8Lower, none⟩ : LocState).opt_locale = some utf8Lower ∧
    ((lowerList utf8Lower = utf8Lower →
       (locale_to_utf8 (fun _ _ => none) none ⟨some utf8Lower, none⟩ [65]).1
         = LtuRes.same) ∧
     ((open_locale_to_utf8 (fun _ _ => none) none ⟨some utf8Lower, none⟩).1 = false →
       (locale_to_utf8 (fun _ _ => none) none ⟨some utf8Lower, none⟩ [65]).1
         = LtuRes.same) ∧
     (∀ cdh, (open_locale_to_utf8 (fun _ _ => none) none
         ⟨some utf8Lower, none⟩).2.locale2utf8 = some cdh →
       (do_conversion cdh [65]).ok = false →
       (locale_to_utf8 (fun _ _ => none) none ⟨some utf8Lower, none⟩ [65]).1
         = LtuRes.same) ∧
     (∀ co, (locale_to_utf8 (fun _ _ => none) none ⟨some utf8Lower, none⟩ [65]).1
         = LtuRes.converted co → co.ok = true)) :=
  ⟨rfl, locale_to_utf8_fallback _ _ _ _ _ rfl⟩

/-- Claim C8: `idn_encode` on a host not flagged as UTF-8 first runs
`remote_to_utf8` and fails (returns "no result") when that fails;
every host that reaches the IDNA step succeeds exactly when the external
to-ASCII operation reports success, in which case the new ASCII string
is returned, and fails on any non-success status. -/
theorem idn_encode_failure_paths (oc : List Nat → List Nat → Option Codec)
    (opts : Opts) (st : IriState) (g : Bool) (g2 : List Nat)
    (idna : List Nat → IdnaRes) (host : List Nat) :
    ((remote_to_utf8 oc opts st g host).ok = false →
      idn_encode oc opts st g g2 idna host false = none) ∧
    ((remote_to_utf8 oc opts st g host).ok = true →
      idn_encode oc opts st g g2 idna host false
        = match idna ((remote_to_utf8 oc opts st g host).out.getD g2) with
          | .success o => some o
          | .failure _ => none) ∧
    (idn_encode oc opts st g g2 idna host true
      = match idna host with
        | .success o => some o
        | .failure _ => none) := by
  refine ⟨?_, ?_, ?_⟩
  · intro hfail
    simp [idn_encode, hfail]
  · intro hok
    simp [idn_encode, hok]
  · simp [idn_encode]

/-- Claim C9: the claim is that `locale_to_utf8` is safe when the
configured local encoding is unset because a default is derived before
the value is consulted; in fact the guard deriving the default lives
only inside `open_locale_to_utf8`, while `locale_to_utf8` first passes
`opt.locale` to `strcasecmp` unguarded — with `opt.locale` unset the
call dereferences NULL (undefined behaviour, `undef` below) even though
the locale inquiry would have supplied a default, which
`open_locale_to_utf8` itself (second conjunct) does derive. -/
theorem locale_to_utf8_unset_locale_ub :
    (locale_to_utf8 (fun _ _ => none) (some utf8Name) ⟨none, none⟩ [65]).1
      = LtuRes.undef ∧
    (open_locale_to_utf8 (fun _ _ => none) (some utf8Name)
      ⟨none, none⟩).2.opt_locale = some utf8Name :=
  ⟨rfl, rfl⟩

/-- Claim C10: each registry setter mutates only its own field —
`set_current_charset` only `current`, `set_remote_charset` only
`remote`, `set_utf8_encode` only the UTF-8 flag — and the string setters
store (a private copy of) the argument value. -/
theorem registry_setters_frame (st : IriState) (c : Option (List Nat)) (b : Bool) :
    (set_current_charset st c).current = c ∧
    (set_current_charset st c).remote = st.remote ∧
    (set_current_charset st c).utf8_encode = st.utf8_encode ∧
    (set_current_charset st c).ugly_no_encode = st.ugly_no_encode ∧
    (set_remote_charset st c).remote = c ∧
    (set_remote_charset st c).current = st.current ∧
    (set_remote_charset st c).utf8_encode = st.utf8_encode ∧
    (set_remote_charset st c).ugly_no_encode = st.ugly_no_encode ∧
    (set_utf8_encode st b).utf8_encode = b ∧
    (set_utf8_encode st b).remote = st.remote ∧
    (set_utf8_encode st b).current = st.current ∧
    (set_utf8_encode st b).ugly_no_encode = st.ugly_no_encode :=
  ⟨rfl, rfl, rfl, rfl, rfl, rfl, rfl, rfl, rfl, rfl, rfl, rfl⟩
